import Mathlib

/-!
Verification development for the `gitops-secrets` repository.

The core under verification is the encryption module (`masterKey`, `deriveKey`,
`encrypt`, `decrypt`, `getEnvObject`, `mergeSecrets`, `loadSecrets`) together
with the base64 helpers of `src/utils.ts` (`uint8ArrayToBase64`,
`base64ToUint8Array`).

Embedding conventions:
  - JavaScript strings are `List Char` (`JSString`); byte buffers
    (`Uint8Array`) are `List Nat` with every entry `< 256`.
  - `process.env` is a function `String → Option String` for reads
    (`masterKey`, module configuration) and an association list `EnvMap`
    for the mutable environment object that `mergeSecrets` writes into.
  - Host platform primitives that the module calls but does not define
    (WebCrypto PBKDF2 key derivation, the AES-GCM cipher operations, the
    UTF-8 TextEncoder/TextDecoder pair, JSON.parse) are a parameter
    `Platform κ`; the properties the host guarantees (AEAD round-trip,
    tamper evidence of the authentication tag, text round-trip) are
    explicit named predicates used as hypotheses.  `Platform.pbkdf2`
    takes the passphrase string directly (the source's
    `TextEncoder().encode` of the passphrase is injective, so it is folded
    into the primitive).  NaN numbers reaching the iteration count are
    modelled by `Option Int` with `none` for NaN.
  - `crypto.getRandomValues` consumes a prefix of an explicit entropy
    stream `List Nat`; `encrypt` returns the unconsumed remainder so that
    entropy consumption is observable.
  - The base64 helpers compose `atob`/`btoa` with a byte↔char code map;
    the composite is exactly byte-level base64 (WHATWG forgiving-base64
    on decode, modelled without the ASCII-whitespace stripping step,
    which no claim exercises).
  - String `.length` is modelled by Lean's character count (the UTF-16
    code-unit count of the host agrees on the strings the claims use).
  - `Number(s)` (`jsNumber`) is modelled on plain optionally-signed
    decimal numerals; the host's exponent/hex/float forms are out of
    scope of every claim and map to NaN here.
-/

namespace GitopsSecrets

abbrev JSString := List Char

abbrev Env := String → Option String

abbrev EnvMap := List (String × String)

/-- NaN-aware JavaScript number restricted to the integral values the
module manipulates; `none` is NaN. -/
abbrev JSNum := Option Int

/-- `String.prototype.split` with a single-character separator,
as used by `decrypt` (`encodedData.split(':')`). -/
def splitOnChar (c : Char) : List Char → List (List Char)
  | [] => [[]]
  | x :: xs =>
    if x = c then [] :: splitOnChar c xs
    else
      match splitOnChar c xs with
      | [] => [[x]]
      | h :: t => (x :: h) :: t

/-- Digit-prefix parser shared by the `parseInt` model: `none` when the
first character is not a decimal digit (JS `NaN`). -/
def parseDigits (l : List Char) : Option Nat :=
  match l.takeWhile Char.isDigit with
  | [] => none
  | ds => some (ds.foldl (fun a c => 10 * a + (c.toNat - 48)) 0)

def isJsSpace (c : Char) : Bool :=
  c = ' ' || c = '\t' || c = '\n' || c = '\r'

/-- `Number.parseInt(s, 10)`: skip whitespace, optional sign, then the
longest decimal-digit prefix; `none` models `NaN`. -/
def parseIntChars (s : JSString) : JSNum :=
  match s.dropWhile isJsSpace with
  | '-' :: rest => (parseDigits rest).map (fun n => -(n : Int))
  | '+' :: rest => (parseDigits rest).map (fun n => (n : Int))
  | t => (parseDigits t).map (fun n => (n : Int))

/-- `Number(s)` on the decimal numerals the module configuration uses:
empty/whitespace-only is `0`, an optionally signed all-digit string is its
value, anything else is NaN (`none`).  Host-specific exponent, hex and
fractional forms are not modelled (no claim exercises them). -/
def jsNumber (s : JSString) : JSNum :=
  let t := (s.dropWhile isJsSpace).reverse.dropWhile isJsSpace |>.reverse
  match t with
  | [] => some 0
  | '-' :: rest => if rest ≠ [] ∧ rest.all Char.isDigit then (parseDigits rest).map (fun n => -(n : Int)) else none
  | '+' :: rest => if rest ≠ [] ∧ rest.all Char.isDigit then (parseDigits rest).map (fun n => (n : Int)) else none
  | t' => if t'.all Char.isDigit then (parseDigits t').map (fun n => (n : Int)) else none

/-! ## base64 (`src/utils.ts` composed with the host `btoa`/`atob`) -/

def b64Alphabet : List Char :=
  "ABCDEFGHIJKLMNOPQRSTUVWXYZabcdefghijklmnopqrstuvwxyz0123456789+/".toList

def b64Char (n : Nat) : Char := b64Alphabet.getD n '?'

def b64CharVal (c : Char) : Option Nat := b64Alphabet.findIdx? (· = c)

/-- `uint8ArrayToBase64` (utils.ts): byte list to base64 text with `=`
padding. -/
def uint8ArrayToBase64 : List Nat → List Char
  | [] => []
  | [a] => [b64Char (a / 4), b64Char (a % 4 * 16), '=', '=']
  | [a, b] => [b64Char (a / 4), b64Char (a % 4 * 16 + b / 16), b64Char (b % 16 * 4), '=']
  | a :: b :: c :: rest =>
    b64Char (a / 4) :: b64Char (a % 4 * 16 + b / 16) ::
      b64Char (b % 16 * 4 + c / 64) :: b64Char (c % 64) :: uint8ArrayToBase64 rest

/-- Per-character alphabet lookup of the decoder loop; `none` signals the
`InvalidCharacterError` that `atob` raises on a character outside the
base64 alphabet. -/
def b64Vals : List Char → Option (List Nat)
  | [] => some []
  | c :: cs =>
    match b64CharVal c, b64Vals cs with
    | some v, some vs => some (v :: vs)
    | _, _ => none

/-- Sextets to bytes, discarding trailing bits of a final partial group
(forgiving-base64).  A singleton remainder cannot occur: the caller
rejects inputs of length ≡ 1 (mod 4). -/
def sextetsToBytes : List Nat → List Nat
  | a :: b :: c :: d :: rest =>
    (a * 4 + b / 16) :: (b % 16 * 16 + c / 4) :: (c % 4 * 64 + d) :: sextetsToBytes rest
  | [a, b] => [a * 4 + b / 16]
  | [a, b, c] => [a * 4 + b / 16, b % 16 * 16 + c / 4]
  | _ => []

/-- Remove up to two trailing `=` (only applied when the length is a
multiple of 4, per forgiving-base64). -/
def stripB64Pad (s : List Char) : List Char :=
  if s.getLast? = some '=' then
    if s.dropLast.getLast? = some '=' then s.dropLast.dropLast else s.dropLast
  else s

def invalidCharMsg : String :=
  "InvalidCharacterError: The string to be decoded is not correctly encoded."

/-- `base64ToUint8Array` (utils.ts): `atob` (forgiving-base64) followed by
the char-code loop; errors mirror `atob`'s `InvalidCharacterError`. -/
def base64ToUint8Array (s : JSString) : Except String (List Nat) :=
  let body := if s.length % 4 = 0 then stripB64Pad s else s
  if body.length % 4 = 1 then .error invalidCharMsg
  else
    match b64Vals body with
    | none => .error invalidCharMsg
    | some sx => .ok (sextetsToBytes sx)

/-- Specification view of the sextet stream produced by
`uint8ArrayToBase64` (used only to state and prove the round-trip
lemmas). -/
def specSextets : List Nat → List Nat
  | [] => []
  | [a] => [a / 4, a % 4 * 16]
  | [a, b] => [a / 4, a % 4 * 16 + b / 16, b % 16 * 4]
  | a :: b :: c :: rest =>
    a / 4 :: (a % 4 * 16 + b / 16) :: (b % 16 * 4 + c / 64) :: c % 64 :: specSextets rest

/-- The `=` padding `uint8ArrayToBase64` appends, as a function of the
byte count. -/
def padChars (l : List Nat) : List Char :=
  if l.length % 3 = 0 then [] else if l.length % 3 = 1 then ['=', '='] else ['=']

/-! ## Module configuration and platform primitives -/

/-- Module-level constant state captured when the module is evaluated:
`const PBKDF2_ROUNDS = process.env.GITOPS_SECRETS_PBKDF2_ROUNDS || 1000000`.
The value is a string when the variable is set (and non-empty, `||` being
falsy on the empty string) and the number `1000000` rendered as its
numeral otherwise. -/
structure ModuleConfig where
  pbkdf2Rounds : JSString

def loadModuleConfig (env : Env) : ModuleConfig :=
  { pbkdf2Rounds :=
      match env "GITOPS_SECRETS_PBKDF2_ROUNDS" with
      | some s => if s.isEmpty then "1000000".toList else s.toList
      | none => "1000000".toList }

/-- Host platform primitives used by the module but defined outside the
repository (WebCrypto, TextEncoder/TextDecoder, JSON). -/
structure Platform (κ : Type) where
  pbkdf2 : String → List Nat → JSNum → Except String κ
  encryptOp : κ → List Nat → List Nat → List Nat
  decryptOp : κ → List Nat → List Nat → Except String (List Nat)
  textEncode : String → List Nat
  textDecode : List Nat → String
  jsonParse : String → Except String (List (String × String))

/-- AEAD round-trip guarantee of the host cipher. -/
def AEADCorrect {κ : Type} (P : Platform κ) : Prop :=
  ∀ k iv m, P.decryptOp k iv (P.encryptOp k iv m) = .ok m

/-- Cipher output stays within byte range on byte-range input. -/
def CipherBytes {κ : Type} (P : Platform κ) : Prop :=
  ∀ k iv m, (∀ b ∈ m, b < 256) → ∀ b ∈ P.encryptOp k iv m, b < 256

/-- TextDecoder inverts TextEncoder. -/
def TextRoundtrip {κ : Type} (P : Platform κ) : Prop :=
  ∀ s, P.textDecode (P.textEncode s) = s

/-- TextEncoder emits bytes. -/
def TextBytes {κ : Type} (P : Platform κ) : Prop :=
  ∀ s, ∀ b ∈ P.textEncode s, b < 256

/-- `l'` is `l` with exactly one byte position rewritten to a different
byte value. -/
def SingleByteChange (l l' : List Nat) : Prop :=
  ∃ i b, i < l.length ∧ b < 256 ∧ l.get? i ≠ some b ∧ l' = l.set i b

/-- Authentication-tag guarantee of the host AEAD: a single-byte change to
a genuine ciphertext is rejected. -/
def TamperEvident {κ : Type} (P : Platform κ) : Prop :=
  ∀ k iv m ct', (∀ b ∈ m, b < 256) →
    SingleByteChange (P.encryptOp k iv m) ct' → ∃ e, P.decryptOp k iv ct' = .error e

/-! ## The encryption module (`masterKey`, `deriveKey`, `encrypt`, `decrypt`) -/

def masterKeyMsg : String :=
  "The 'GITOPS_SECRETS_MASTER_KEY' environment variable must be set to a string of 16 characters or more"

/-- `masterKey()`: read the passphrase variable fresh; absent, empty
(falsy) or shorter than 16 characters is a configuration error. -/
def masterKey (env : Env) : Except String String :=
  match env "GITOPS_SECRETS_MASTER_KEY" with
  | none => .error masterKeyMsg
  | some mk => if mk.length < 16 then .error masterKeyMsg else .ok mk

/-- `deriveKey(masterKeyString, salt, iterations = Number(PBKDF2_ROUNDS))`:
the outer `Option` on `iterations` is argument omission (the default
parameter reads the module-level rounds configuration). -/
def deriveKey {κ : Type} (P : Platform κ) (cfg : ModuleConfig) (mk : String)
    (salt : List Nat) (iterations : Option JSNum) : Except String κ :=
  P.pbkdf2 mk salt
    (match iterations with
     | none => jsNumber cfg.pbkdf2Rounds
     | some n => n)

/-- `getRandomValues(new Uint8Array(n))` drawing from the entropy
stream. -/
def getRandomValues (n : Nat) (rng : List Nat) : List Nat × List Nat :=
  (rng.take n, rng.drop n)

/-- Envelope assembly of `encrypt`'s template literal
`base64:<rounds>:<salt>:<iv>:<ciphertext>`. -/
def mkEnvelope (rounds saltB64 ivB64 ctB64 : JSString) : JSString :=
  "base64:".toList ++ rounds ++ ':' :: saltB64 ++ ':' :: ivB64 ++ ':' :: ctB64

/-- `encrypt(secrets)`.  Mirrors the source statement order: salt and iv
are drawn from the entropy stream *before* `masterKey()` resolves the
passphrase.  Returns the result together with the unconsumed remainder of
the entropy stream. -/
def encrypt {κ : Type} (P : Platform κ) (cfg : ModuleConfig) (env : Env)
    (secrets : String) (rng : List Nat) : Except String JSString × List Nat :=
  let s1 := getRandomValues 8 rng
  let salt := s1.1
  let s2 := getRandomValues 12 s1.2
  let iv := s2.1
  match masterKey env with
  | .error e => (.error e, s2.2)
  | .ok mk =>
    match deriveKey P cfg mk salt none with
    | .error e => (.error e, s2.2)
    | .ok key =>
      let ct := P.encryptOp key iv (P.textEncode secrets)
      (.ok (mkEnvelope cfg.pbkdf2Rounds (uint8ArrayToBase64 salt)
            (uint8ArrayToBase64 iv) (uint8ArrayToBase64 ct)), s2.2)

/-- The optional-`base64:`-tag strip at the top of `decrypt`. -/
def stripEncodingTag (s : JSString) : JSString :=
  if List.isPrefixOf ("base64:".toList) s then s.drop ("base64:".toList).length else s

def formatErrMsg (n : Nat) : String :=
  "Encrypted payload invalid. Expected 4 sections but got " ++ toString n

/-- `decrypt(ciphertext)`.  The format check and the three base64 decodes
happen before the `try` block; `masterKey`, `deriveKey` and the cipher
call are inside it, their failures re-raised with the
`Decryption failed: ` prefix. -/
def decrypt {κ : Type} (P : Platform κ) (cfg : ModuleConfig) (env : Env)
    (ciphertext : JSString) : Except String String :=
  let encodedData := stripEncodingTag ciphertext
  match splitOnChar ':' encodedData with
  | [p0, p1, p2, p3] =>
    let rounds := parseIntChars p0
    match base64ToUint8Array p1 with
    | .error e => .error e
    | .ok salt =>
      match base64ToUint8Array p2 with
      | .error e => .error e
      | .ok iv =>
        match base64ToUint8Array p3 with
        | .error e => .error e
        | .ok encryptedContent =>
          match masterKey env with
          | .error e => .error ("Decryption failed: " ++ e)
          | .ok mk =>
            match deriveKey P cfg mk salt (some rounds) with
            | .error e => .error ("Decryption failed: " ++ e)
            | .ok key =>
              match P.decryptOp key iv encryptedContent with
              | .error e => .error ("Decryption failed: " ++ e)
              | .ok buf => .ok (P.textDecode buf)
  | parts => .error (formatErrMsg parts.length)

/-! ## Environment targets (`types.ts`, `getEnvObject`, `mergeSecrets`,
`loadSecrets`) -/

namespace EnvTarget

def PROCESS : String := "process"

def IMPORT_META : String := "import.meta"

end EnvTarget

/-- Execution context: `processEnv = none` conflates `typeof process ===
'undefined'` with a falsy `process.env` (the module only distinguishes
them on paths that are unreachable once `getEnvObject` has succeeded);
`importMeta = none` is `typeof import.meta === 'undefined'`, and
`importMeta = some none` is a defined `import.meta` with a falsy `env`. -/
structure JSContext where
  processEnv : Option EnvMap
  importMeta : Option (Option EnvMap)

def processUnavailableMsg : String := "process.env is not available in this environment"

def importMetaUnavailableMsg : String := "import.meta.env is not available in this environment"

/-- `getEnvObject(target)`. -/
def getEnvObject (ctx : JSContext) (target : String) : Except String EnvMap :=
  match ctx.importMeta with
  | none =>
    match ctx.processEnv with
    | some pe => .ok pe
    | none => .error processUnavailableMsg
  | some im =>
    if target = EnvTarget.PROCESS then
      match ctx.processEnv with
      | some pe => .ok pe
      | none => .error processUnavailableMsg
    else if target = EnvTarget.IMPORT_META then
      match im with
      | some em => .ok em
      | none => .error importMetaUnavailableMsg
    else .error ("Unsupported environment target: " ++ target)

/-- `obj[key] = value` on the association-list view of a JS object:
update in place if present, append otherwise. -/
def setKey : EnvMap → String → String → EnvMap
  | [], k, v => [(k, v)]
  | p :: rest, k, v => if p.1 = k then (k, v) :: rest else p :: setKey rest k v

/-- `obj[key]` read. -/
def getKey : EnvMap → String → Option String
  | [], _ => none
  | p :: rest, k => if p.1 = k then some p.2 else getKey rest k

/-- The `for (const [key, value] of Object.entries(payload))` write loop. -/
def writeAll (m : EnvMap) (payload : List (String × String)) : EnvMap :=
  payload.foldl (fun acc kv => setKey acc kv.1 kv.2) m

/-- `mergeSecrets(payload, target)`.  `envObject` in the source is an
alias of the mapping the loop mutates, so the mapping returned here is
the post-write one; branches that perform no write return the resolved
mapping unchanged. -/
def mergeSecrets (payload : List (String × String)) (target : String)
    (ctx : JSContext) : Except String (EnvMap × JSContext) :=
  match getEnvObject ctx target with
  | .error e => .error e
  | .ok envObj =>
    match ctx.importMeta with
    | none =>
      match ctx.processEnv with
      | some pe =>
        let pe' := writeAll pe payload
        .ok (pe', { ctx with processEnv := some pe' })
      | none => .ok (envObj, ctx)
    | some im =>
      if target = EnvTarget.PROCESS then
        match ctx.processEnv with
        | some pe =>
          let pe' := writeAll pe payload
          .ok (pe', { ctx with processEnv := some pe' })
        | none => .ok (envObj, ctx)
      else if target = EnvTarget.IMPORT_META then
        match im with
        | some em =>
          let em' := writeAll em payload
          .ok (em', { ctx with importMeta := some (some em') })
        | none => .ok (envObj, ctx)
      else .ok (envObj, ctx)

/-- `loadSecrets(encryptedSecrets, target)`.  The third component of a
successful result is the `console.error` output (`some` exactly when the
catch block ran). -/
def loadSecrets {κ : Type} (P : Platform κ) (cfg : ModuleConfig) (env : Env)
    (encryptedSecrets : JSString) (target : String) (ctx : JSContext) :
    Except String (EnvMap × JSContext × Option String) :=
  let attempt : Except String (EnvMap × JSContext) :=
    match decrypt P cfg env encryptedSecrets with
    | .error e => .error e
    | .ok decryptedJson =>
      match P.jsonParse decryptedJson with
      | .error e => .error e
      | .ok payload => mergeSecrets payload target ctx
  match attempt with
  | .ok (m, ctx') => .ok (m, ctx', none)
  | .error e =>
    match getEnvObject ctx target with
    | .ok m => .ok (m, ctx, some ("Failed to load secrets: " ++ e))
    | .error e2 => .error e2

/-! ## A concrete host-platform model

A computable instance of `Platform` used to evaluate the module on
concrete inputs.  Its text codec is an injective 3-bytes-per-character
encoding with a total decoder, its cipher carries the plaintext alongside
a 1-byte additive tag over key, iv and body, and its key derivation mixes
passphrase, salt and iteration count injectively enough for the claims.
`jsonParse` is a stub of the host JSON parser (no claim needs a
successful parse through it). -/

def encodeChars : List Char → List Nat
  | [] => []
  | c :: cs => c.toNat / 65536 :: c.toNat / 256 % 256 :: c.toNat % 256 :: encodeChars cs

def decodeChars : List Nat → List Char
  | b0 :: b1 :: b2 :: rest => Char.ofNat (b0 * 65536 + b1 * 256 + b2) :: decodeChars rest
  | _ => []

def modelPbkdf2 (mk : String) (salt : List Nat) (iters : JSNum) : Except String (List Nat) :=
  match iters with
  | none => .error "OperationError"
  | some n =>
    if n ≤ 0 then .error "OperationError"
    else .ok (encodeChars mk.toList ++ salt ++ [n.toNat % 256])

def modelPlatform : Platform (List Nat) where
  pbkdf2 := modelPbkdf2
  encryptOp := fun k iv m => m ++ [(k.sum + iv.sum + m.sum) % 256]
  decryptOp := fun k iv c =>
    if c = [] then .error "OperationError"
    else if c.getLastD 0 = (k.sum + iv.sum + c.dropLast.sum) % 256 then .ok c.dropLast
    else .error "OperationError"
  textEncode := fun s => encodeChars s.toList
  textDecode := fun bs => String.mk (decodeChars bs)
  jsonParse := fun _ => .error "Unexpected end of JSON input"

/-- First segment of the stripped envelope (the embedded rounds text). -/
def roundsSegment (es : JSString) : JSString :=
  (splitOnChar ':' (stripEncodingTag es)).headD []

/-! ## Concrete fixtures for witness evaluations -/

def okStr (e : Except String JSString) : JSString :=
  match e with
  | .ok s => s
  | .error _ => []

def wEnv : Env := fun v =>
  if v = "GITOPS_SECRETS_MASTER_KEY" then some "0123456789abcdef" else none

def wEmptyEnv : Env := fun _ => none

def wEnvLoad : Env := fun v =>
  if v = "GITOPS_SECRETS_PBKDF2_ROUNDS" then some "5000" else none

def wEnvCall : Env := fun v =>
  if v = "GITOPS_SECRETS_PBKDF2_ROUNDS" then some "7000"
  else if v = "GITOPS_SECRETS_MASTER_KEY" then some "0123456789abcdef" else none

def wEnvRounds : Env := fun v =>
  if v = "GITOPS_SECRETS_PBKDF2_ROUNDS" then some "5000"
  else if v = "GITOPS_SECRETS_MASTER_KEY" then some "0123456789abcdef" else none

def wCtx : JSContext := { processEnv := some [("HOME", "/root"), ("A", "0")], importMeta := none }

theorem decodeChars_encodeChars (l : List Char) : decodeChars (encodeChars l) = l := by
  induction l with
  | nil => rfl
  | cons c cs ih =>
    have hval : c.toNat < 1114112 := by
      have h := c.valid
      rcases h with h | h
      · exact Nat.lt_trans h (by norm_num)
      · exact h.2
    have harg : c.toNat / 65536 * 65536 + c.toNat / 256 % 256 * 256 + c.toNat % 256
        = c.toNat := by omega
    simp only [encodeChars, decodeChars, harg, ih, List.cons.injEq, and_true]
    exact Char.ofNat_toNat c

theorem encodeChars_bytes (l : List Char) : ∀ b ∈ encodeChars l, b < 256 := by
  induction l with
  | nil => intro b hb; simp [encodeChars] at hb
  | cons c cs ih =>
    intro b hb
    have hval : c.toNat < 1114112 := by
      have h := c.valid
      rcases h with h | h
      · exact Nat.lt_trans h (by norm_num)
      · exact h.2
    simp only [encodeChars, List.mem_cons] at hb
    rcases hb with rfl | rfl | rfl | hb
    · omega
    · omega
    · omega
    · exact ih b hb

theorem modelPlatform_textRoundtrip : TextRoundtrip modelPlatform := by
  intro s
  show String.mk (decodeChars (encodeChars s.toList)) = s
  rw [decodeChars_encodeChars]
  rfl

theorem modelPlatform_textBytes : TextBytes modelPlatform := by
  intro s b hb
  exact encodeChars_bytes s.toList b hb

theorem modelPlatform_aead : AEADCorrect modelPlatform := by
  intro k iv m
  show (if m ++ [(k.sum + iv.sum + m.sum) % 256] = [] then Except.error "OperationError"
    else if (m ++ [(k.sum + iv.sum + m.sum) % 256]).getLastD 0
        = (k.sum + iv.sum + (m ++ [(k.sum + iv.sum + m.sum) % 256]).dropLast.sum) % 256
      then Except.ok (m ++ [(k.sum + iv.sum + m.sum) % 256]).dropLast
      else Except.error "OperationError") = Except.ok m
  rw [if_neg (by simp), List.getLastD_concat, List.dropLast_concat, if_pos rfl]

theorem modelPlatform_cipherBytes : CipherBytes modelPlatform := by
  intro k iv m hm b hb
  show b < 256
  simp only [modelPlatform, List.mem_append, List.mem_singleton] at hb
  rcases hb with hb | rfl
  · exact hm b hb
  · omega

theorem sum_set_add (l : List Nat) (i : Nat) (b : Nat) (hi : i < l.length) :
    (l.set i b).sum + l.get ⟨i, hi⟩ = l.sum + b := by
  induction l generalizing i with
  | nil => simp at hi
  | cons x xs ih =>
    cases i with
    | zero => simp [List.set, List.sum_cons]; omega
    | succ n =>
      have hn : n < xs.length := by simpa using hi
      have := ih n hn
      simp only [List.set, List.sum_cons, List.get_cons_succ]
      omega

theorem tag_mod_neq (K s s' v b : Nat) (h : s' + v = s + b) (hv : v < 256) (hb : b < 256)
    (hne : v ≠ b) : (K + s) % 256 ≠ (K + s') % 256 := by
  omega

theorem modelPlatform_tamperEvident : TamperEvident modelPlatform := by
  intro k iv m ct' hm hch
  obtain ⟨i, b, hi, hb, hne, rfl⟩ := hch
  have hi' : i < (m ++ [(k.sum + iv.sum + m.sum) % 256]).length := hi
  have hne' : (m ++ [(k.sum + iv.sum + m.sum) % 256]).get? i ≠ some b := hne
  have hlen : (m ++ [(k.sum + iv.sum + m.sum) % 256]).length = m.length + 1 := by simp
  refine ⟨"OperationError", ?_⟩
  show (if (m ++ [(k.sum + iv.sum + m.sum) % 256]).set i b = [] then Except.error "OperationError"
    else if ((m ++ [(k.sum + iv.sum + m.sum) % 256]).set i b).getLastD 0
        = (k.sum + iv.sum + ((m ++ [(k.sum + iv.sum + m.sum) % 256]).set i b).dropLast.sum) % 256
      then Except.ok ((m ++ [(k.sum + iv.sum + m.sum) % 256]).set i b).dropLast
      else Except.error "OperationError") = Except.error "OperationError"
  by_cases hcase : i < m.length
  · -- the rewritten byte is in the body; the stored tag no longer matches
    have hset : (m ++ [(k.sum + iv.sum + m.sum) % 256]).set i b
        = m.set i b ++ [(k.sum + iv.sum + m.sum) % 256] := by
      rw [List.set_append, if_pos hcase]
    have hv : m.get ⟨i, hcase⟩ < 256 := hm _ (List.get_mem m i hcase)
    have hvne : m.get ⟨i, hcase⟩ ≠ b := by
      intro hcontra
      apply hne'
      rw [List.get?_append hcase, List.get?_eq_get hcase, hcontra]
    have hsum := sum_set_add m i b hcase
    rw [hset, if_neg (by simp), List.getLastD_concat, List.dropLast_concat,
      if_neg (tag_mod_neq (k.sum + iv.sum) m.sum (m.set i b).sum (m.get ⟨i, hcase⟩) b hsum hv hb hvne)]
  · -- the rewritten byte is the tag itself
    have hieq : i = m.length := by omega
    have hset : (m ++ [(k.sum + iv.sum + m.sum) % 256]).set i b = m ++ [b] := by
      rw [List.set_append, if_neg (by omega), hieq]
      simp
    have hvne : b ≠ (k.sum + iv.sum + m.sum) % 256 := by
      intro hcontra
      apply hne'
      rw [hieq, List.get?_append_right (Nat.le_refl _)]
      simp [hcontra]
    rw [hset, if_neg (by simp), List.getLastD_concat, List.dropLast_concat,
      if_neg hvne]

/-! ## base64 round-trip -/

theorem findIdx?_lt_length_aux {α : Type} (p : α → Bool) (l : List α) :
    ∀ acc i, List.findIdx? p l acc = some i → i < acc + l.length := by
  induction l with
  | nil => intro acc i h; simp [List.findIdx?] at h
  | cons x xs ih =>
    intro acc i h
    rw [List.findIdx?_cons] at h
    by_cases hp : p x
    · rw [if_pos hp] at h
      injection h with h
      simp only [List.length_cons]
      omega
    · rw [if_neg hp] at h
      have := ih (acc + 1) i h
      simp only [List.length_cons]
      omega

theorem findIdx?_lt_length {α : Type} (p : α → Bool) (l : List α) (i : Nat)
    (h : l.findIdx? p = some i) : i < l.length := by
  have := findIdx?_lt_length_aux p l 0 i h
  omega

theorem b64CharVal_lt (c : Char) (v : Nat) (h : b64CharVal c = some v) : v < 64 :=
  findIdx?_lt_length _ _ _ h

theorem b64CharVal_b64Char : ∀ n < 64, b64CharVal (b64Char n) = some n := by decide

theorem b64Char_ne_eq : ∀ n < 64, b64Char n ≠ '=' := by decide

theorem b64Char_ne_colon : ∀ n < 64, b64Char n ≠ ':' := by decide

theorem specSextets_lt (l : List Nat) (h : ∀ b ∈ l, b < 256) :
    ∀ s ∈ specSextets l, s < 64 := by
  induction l using specSextets.induct with
  | case1 => intro s hs; simp [specSextets] at hs
  | case2 a =>
    intro s hs
    have ha : a < 256 := h a (by simp)
    simp [specSextets] at hs
    rcases hs with rfl | rfl <;> omega
  | case3 a b =>
    intro s hs
    have ha : a < 256 := h a (by simp)
    have hb : b < 256 := h b (by simp)
    simp [specSextets] at hs
    rcases hs with rfl | rfl | rfl <;> omega
  | case4 a b c rest ih =>
    intro s hs
    have ha : a < 256 := h a (by simp)
    have hb : b < 256 := h b (by simp)
    have hc : c < 256 := h c (by simp)
    simp only [specSextets, List.mem_cons] at hs
    rcases hs with rfl | rfl | rfl | rfl | hs
    · omega
    · omega
    · omega
    · omega
    · exact ih (fun x hx => h x (by simp [hx])) s hs

theorem uint8ArrayToBase64_decomp (l : List Nat) :
    uint8ArrayToBase64 l = (specSextets l).map b64Char ++ padChars l := by
  induction l using specSextets.induct with
  | case1 => rfl
  | case2 a => rfl
  | case3 a b => rfl
  | case4 a b c rest ih =>
    show b64Char (a / 4) :: b64Char (a % 4 * 16 + b / 16) ::
        b64Char (b % 16 * 4 + c / 64) :: b64Char (c % 64) :: uint8ArrayToBase64 rest = _
    rw [ih]
    have hmod : (a :: b :: c :: rest).length % 3 = rest.length % 3 := by
      simp; omega
    simp only [specSextets, List.map_cons, padChars, hmod, List.cons_append]

theorem sextetsToBytes_specSextets (l : List Nat) (h : ∀ b ∈ l, b < 256) :
    sextetsToBytes (specSextets l) = l := by
  induction l using specSextets.induct with
  | case1 => rfl
  | case2 a =>
    have ha : a < 256 := h a (by simp)
    show [a / 4 * 4 + a % 4 * 16 / 16] = [a]
    congr 1; omega
  | case3 a b =>
    have ha : a < 256 := h a (by simp)
    have hb : b < 256 := h b (by simp)
    show [a / 4 * 4 + (a % 4 * 16 + b / 16) / 16,
      (a % 4 * 16 + b / 16) % 16 * 16 + b % 16 * 4 / 4] = [a, b]
    congr 1
    · omega
    · congr 1; omega
  | case4 a b c rest ih =>
    have ha : a < 256 := h a (by simp)
    have hb : b < 256 := h b (by simp)
    have hc : c < 256 := h c (by simp)
    show (a / 4 * 4 + (a % 4 * 16 + b / 16) / 16) ::
      ((a % 4 * 16 + b / 16) % 16 * 16 + (b % 16 * 4 + c / 64) / 4) ::
      ((b % 16 * 4 + c / 64) % 4 * 64 + c % 64) :: sextetsToBytes (specSextets rest) = _
    rw [ih (fun x hx => h x (by simp [hx]))]
    congr 1
    · omega
    · congr 1
      · omega
      · congr 1; omega

theorem uint8ArrayToBase64_length_mod (l : List Nat) :
    (uint8ArrayToBase64 l).length % 4 = 0 := by
  induction l using specSextets.induct with
  | case1 => rfl
  | case2 a => simp [uint8ArrayToBase64]
  | case3 a b => simp [uint8ArrayToBase64]
  | case4 a b c rest ih =>
    show (b64Char (a / 4) :: b64Char (a % 4 * 16 + b / 16) ::
        b64Char (b % 16 * 4 + c / 64) :: b64Char (c % 64) :: uint8ArrayToBase64 rest).length % 4 = 0
    simp only [List.length_cons]
    omega

theorem specSextets_length_mod (l : List Nat) : (specSextets l).length % 4 ≠ 1 := by
  induction l using specSextets.induct with
  | case1 => simp [specSextets]
  | case2 a => simp [specSextets]
  | case3 a b => simp [specSextets]
  | case4 a b c rest ih =>
    show (specSextets (a :: b :: c :: rest)).length % 4 ≠ 1
    simp only [specSextets, List.length_cons]
    omega

theorem b64Vals_map (sx : List Nat) (h : ∀ s ∈ sx, s < 64) :
    b64Vals (sx.map b64Char) = some sx := by
  induction sx with
  | nil => rfl
  | cons s rest ih =>
    show b64Vals (b64Char s :: rest.map b64Char) = some (s :: rest)
    have hs : b64CharVal (b64Char s) = some s := b64CharVal_b64Char s (h s (by simp))
    show (match b64CharVal (b64Char s), b64Vals (rest.map b64Char) with
      | some v, some vs => some (v :: vs)
      | _, _ => none) = some (s :: rest)
    rw [hs, ih (fun x hx => h x (by simp [hx]))]

theorem map_b64Char_getLast_ne_eq (sx : List Nat) (h : ∀ s ∈ sx, s < 64) :
    (sx.map b64Char).getLast? ≠ some '=' := by
  rw [List.getLast?_map]
  cases hl : sx.getLast? with
  | none => simp
  | some v =>
    have hv : v ∈ sx := List.mem_of_mem_getLast? hl
    intro hc
    exact b64Char_ne_eq v (h v hv) (by simpa using hc)

theorem base64_roundtrip (l : List Nat) (h : ∀ b ∈ l, b < 256) :
    base64ToUint8Array (uint8ArrayToBase64 l) = .ok l := by
  have hsx : ∀ s ∈ specSextets l, s < 64 := specSextets_lt l h
  have hlast : ((specSextets l).map b64Char).getLast? ≠ some '=' :=
    map_b64Char_getLast_ne_eq _ hsx
  have hmod4 : (uint8ArrayToBase64 l).length % 4 = 0 := uint8ArrayToBase64_length_mod l
  have hstrip : stripB64Pad (uint8ArrayToBase64 l) = (specSextets l).map b64Char := by
    rw [uint8ArrayToBase64_decomp]
    unfold padChars
    by_cases h0 : l.length % 3 = 0
    · rw [if_pos h0, List.append_nil]
      unfold stripB64Pad
      rw [if_neg hlast]
    · by_cases h1 : l.length % 3 = 1
      · rw [if_neg h0, if_pos h1]
        have hassoc : (specSextets l).map b64Char ++ ['=', '=']
            = ((specSextets l).map b64Char ++ ['=']) ++ ['='] := by simp
        rw [hassoc]
        unfold stripB64Pad
        rw [List.getLast?_concat, if_pos rfl, List.dropLast_concat, List.getLast?_concat,
          if_pos rfl, List.dropLast_concat]
      · rw [if_neg h0, if_neg h1]
        unfold stripB64Pad
        rw [List.getLast?_concat, if_pos rfl, List.dropLast_concat, if_neg hlast]
  unfold base64ToUint8Array
  rw [if_pos hmod4, hstrip]
  have hlenmod : ((specSextets l).map b64Char).length % 4 ≠ 1 := by
    rw [List.length_map]
    exact specSextets_length_mod l
  rw [if_neg hlenmod, b64Vals_map _ hsx]
  show Except.ok (sextetsToBytes (specSextets l)) = Except.ok l
  rw [sextetsToBytes_specSextets l h]

/-! ## Envelope text manipulation -/

theorem b64Char_ne_colon_all (n : Nat) : b64Char n ≠ ':' := by
  by_cases h : n < 64
  · exact b64Char_ne_colon n h
  · unfold b64Char
    rw [List.getD_eq_default _ _ (by simpa [b64Alphabet] using Nat.le_of_not_lt h)]
    decide

theorem colon_not_mem_b64 (l : List Nat) : ':' ∉ uint8ArrayToBase64 l := by
  rw [uint8ArrayToBase64_decomp]
  intro hmem
  rcases List.mem_append.mp hmem with hm | hm
  · obtain ⟨s, _, hs⟩ := List.mem_map.mp hm
    exact b64Char_ne_colon_all s hs
  · unfold padChars at hm
    by_cases h0 : l.length % 3 = 0
    · simp [h0] at hm
    · by_cases h1 : l.length % 3 = 1
      · rw [if_neg h0, if_pos h1] at hm
        simp at hm
      · rw [if_neg h0, if_neg h1] at hm
        simp at hm

theorem splitOnChar_ne_nil (c : Char) (l : List Char) : splitOnChar c l ≠ [] := by
  induction l with
  | nil => simp [splitOnChar]
  | cons x xs ih =>
    unfold splitOnChar
    by_cases hx : x = c
    · simp [hx]
    · rw [if_neg hx]
      cases h : splitOnChar c xs with
      | nil => simp
      | cons h t => simp

theorem splitOnChar_no_sep (c : Char) (l : List Char) (h : c ∉ l) :
    splitOnChar c l = [l] := by
  induction l with
  | nil => rfl
  | cons x xs ih =>
    have hx : ¬ x = c := fun hc => h (by simp [hc])
    have hxs : c ∉ xs := fun hc => h (by simp [hc])
    unfold splitOnChar
    rw [if_neg hx, ih hxs]

theorem splitOnChar_append_sep (c : Char) (a rest : List Char) (h : c ∉ a) :
    splitOnChar c (a ++ c :: rest) = a :: splitOnChar c rest := by
  induction a with
  | nil =>
    show splitOnChar c (c :: rest) = [] :: splitOnChar c rest
    conv_lhs => rw [splitOnChar]
    rw [if_pos rfl]
  | cons x xs ih =>
    have hx : ¬ x = c := fun hc => h (by simp [hc])
    have hxs : c ∉ xs := fun hc => h (by simp [hc])
    show splitOnChar c (x :: (xs ++ c :: rest)) = (x :: xs) :: splitOnChar c rest
    conv_lhs => rw [splitOnChar]
    rw [if_neg hx, ih hxs]

theorem splitOnChar_envelope (r s1 s2 s3 : List Char)
    (hr : ':' ∉ r) (h1 : ':' ∉ s1) (h2 : ':' ∉ s2) (h3 : ':' ∉ s3) :
    splitOnChar ':' (r ++ ':' :: s1 ++ ':' :: s2 ++ ':' :: s3) = [r, s1, s2, s3] := by
  have e1 : r ++ ':' :: s1 ++ ':' :: s2 ++ ':' :: s3
      = r ++ ':' :: (s1 ++ ':' :: (s2 ++ ':' :: s3)) := by simp
  rw [e1, splitOnChar_append_sep _ _ _ hr, splitOnChar_append_sep _ _ _ h1,
    splitOnChar_append_sep _ _ _ h2, splitOnChar_no_sep _ _ h3]

theorem stripEncodingTag_mkEnvelope (r s i c : JSString) :
    stripEncodingTag (mkEnvelope r s i c) = r ++ ':' :: s ++ ':' :: i ++ ':' :: c := by
  have hp : List.isPrefixOf ("base64:".toList) (mkEnvelope r s i c) = true :=
    List.isPrefixOf_iff_prefix.mpr (by unfold mkEnvelope; exact List.prefix_append _ _)
  unfold stripEncodingTag
  rw [if_pos hp]
  unfold mkEnvelope
  exact List.drop_left _ _

/-! ## Encrypt/decrypt round trip -/

theorem masterKey_ok (env : Env) (mk : String)
    (henv : env "GITOPS_SECRETS_MASTER_KEY" = some mk) (hlen : ¬ mk.length < 16) :
    masterKey env = .ok mk := by
  unfold masterKey
  rw [henv]
  show (if mk.length < 16 then Except.error masterKeyMsg else Except.ok mk) = Except.ok mk
  rw [if_neg hlen]

/-- Shared core: an envelope produced by `encrypt` under module
configuration `cfg` decrypts to the plaintext under *any* module
configuration `cfg2`, because `decrypt` passes the embedded rounds value
explicitly to `deriveKey`. -/
theorem decrypt_encrypt_core {κ : Type} (P : Platform κ)
    (hA : AEADCorrect P) (hT : TextRoundtrip P) (hTB : TextBytes P) (hCB : CipherBytes P)
    (cfg cfg2 : ModuleConfig) (env env2 : Env) (mk : String)
    (hcfg : parseIntChars cfg.pbkdf2Rounds = jsNumber cfg.pbkdf2Rounds)
    (hcol : ':' ∉ cfg.pbkdf2Rounds)
    (henv : env "GITOPS_SECRETS_MASTER_KEY" = some mk)
    (henv2 : env2 "GITOPS_SECRETS_MASTER_KEY" = some mk)
    (hlen : ¬ mk.length < 16)
    (x : String) (rng : List Nat) (hrng : ∀ b ∈ rng, b < 256)
    (es : JSString) (henc : (encrypt P cfg env x rng).1 = .ok es) :
    decrypt P cfg2 env2 es = .ok x := by
  have hmk : masterKey env = .ok mk := masterKey_ok env mk henv hlen
  have hmk2 : masterKey env2 = .ok mk := masterKey_ok env2 mk henv2 hlen
  simp only [encrypt, getRandomValues, hmk] at henc
  cases hkey : deriveKey P cfg mk (List.take 8 rng) none with
  | error e => rw [hkey] at henc; simp at henc
  | ok key =>
    rw [hkey] at henc
    simp only [] at henc
    have hes : mkEnvelope cfg.pbkdf2Rounds (uint8ArrayToBase64 (List.take 8 rng))
        (uint8ArrayToBase64 (List.take 12 (List.drop 8 rng)))
        (uint8ArrayToBase64 (P.encryptOp key (List.take 12 (List.drop 8 rng)) (P.textEncode x)))
        = es := by
      injection henc
    subst hes
    have hsalt_bytes : ∀ b ∈ List.take 8 rng, b < 256 :=
      fun b hb => hrng b (List.mem_of_mem_take hb)
    have hiv_bytes : ∀ b ∈ List.take 12 (List.drop 8 rng), b < 256 :=
      fun b hb => hrng b (List.mem_of_mem_drop (List.mem_of_mem_take hb))
    have hct_bytes : ∀ b ∈ P.encryptOp key (List.take 12 (List.drop 8 rng)) (P.textEncode x),
        b < 256 := hCB _ _ _ (hTB x)
    have hkey2 : deriveKey P cfg2 mk (List.take 8 rng)
        (some (parseIntChars cfg.pbkdf2Rounds)) = .ok key := by
      unfold deriveKey at hkey ⊢
      rw [hcfg]
      exact hkey
    have hstrip := stripEncodingTag_mkEnvelope cfg.pbkdf2Rounds
      (uint8ArrayToBase64 (List.take 8 rng))
      (uint8ArrayToBase64 (List.take 12 (List.drop 8 rng)))
      (uint8ArrayToBase64 (P.encryptOp key (List.take 12 (List.drop 8 rng)) (P.textEncode x)))
    have hsplit := splitOnChar_envelope cfg.pbkdf2Rounds
      (uint8ArrayToBase64 (List.take 8 rng))
      (uint8ArrayToBase64 (List.take 12 (List.drop 8 rng)))
      (uint8ArrayToBase64 (P.encryptOp key (List.take 12 (List.drop 8 rng)) (P.textEncode x)))
      hcol (colon_not_mem_b64 _) (colon_not_mem_b64 _) (colon_not_mem_b64 _)
    simp only [decrypt, hstrip, hsplit, base64_roundtrip _ hsalt_bytes,
      base64_roundtrip _ hiv_bytes, base64_roundtrip _ hct_bytes, hmk2, hkey2,
      hA key (List.take 12 (List.drop 8 rng)) (P.textEncode x), hT x]

/-! ## Claims -/

/-- C1: For every UTF-8 string `x` and every passphrase of length at least
16, `decrypt(encrypt(x))` returns `x` when both calls run under the same
passphrase.  (The module rounds configuration is a plain decimal numeral,
as produced by `loadModuleConfig`; the host platform satisfies the AEAD
and text-codec round-trip guarantees.) -/
theorem C1_roundtrip {κ : Type} (P : Platform κ)
    (hA : AEADCorrect P) (hT : TextRoundtrip P) (hTB : TextBytes P) (hCB : CipherBytes P)
    (cfg : ModuleConfig)
    (hcfg : parseIntChars cfg.pbkdf2Rounds = jsNumber cfg.pbkdf2Rounds)
    (hcol : ':' ∉ cfg.pbkdf2Rounds)
    (env env2 : Env) (mk : String)
    (henv : env "GITOPS_SECRETS_MASTER_KEY" = some mk)
    (henv2 : env2 "GITOPS_SECRETS_MASTER_KEY" = some mk)
    (hlen : 16 ≤ mk.length)
    (x : String) (rng : List Nat) (hrng : ∀ b ∈ rng, b < 256)
    (es : JSString) (henc : (encrypt P cfg env x rng).1 = .ok es) :
    decrypt P cfg env2 es = .ok x :=
  decrypt_encrypt_core P hA hT hTB hCB cfg cfg env env2 mk hcfg hcol henv henv2
    (by omega) x rng hrng es henc

theorem C1_roundtrip_witness :
    decrypt modelPlatform (loadModuleConfig wEnv) wEnv
      (okStr (encrypt modelPlatform (loadModuleConfig wEnv) wEnv "hi" (List.range 20)).1)
      = .ok "hi" :=
  C1_roundtrip modelPlatform modelPlatform_aead modelPlatform_textRoundtrip
    modelPlatform_textBytes modelPlatform_cipherBytes (loadModuleConfig wEnv)
    (by decide) (by decide) wEnv wEnv "0123456789abcdef" rfl rfl (by decide)
    "hi" (List.range 20) (by decide) _ rfl

/-- C2: an input whose remainder (after the optional `base64:` prefix
strip) does not split on `:` into exactly 4 segments makes `decrypt` fail
with the format error naming the observed count, for every platform and
environment (so before any key derivation or decryption work). -/
theorem C2_format_error {κ : Type} (P : Platform κ) (cfg : ModuleConfig) (env : Env)
    (s : JSString)
    (h : (splitOnChar ':' (stripEncodingTag s)).length ≠ 4) :
    decrypt P cfg env s
      = .error (formatErrMsg (splitOnChar ':' (stripEncodingTag s)).length) := by
  simp only [decrypt]
  split
  · rename_i p0 p1 p2 p3 heq
    exact absurd (by rw [heq]; rfl) h
  · rename_i parts heq
    rfl

theorem C2_format_error_witness :
    decrypt modelPlatform (loadModuleConfig wEnv) wEnv ("base64:onlyonepart".toList)
      = .error "Encrypted payload invalid. Expected 4 sections but got 1" :=
  (C2_format_error modelPlatform (loadModuleConfig wEnv) wEnv
    ("base64:onlyonepart".toList) (by decide)).trans
    (congrArg Except.error (by decide))

/-- C3 counterexample: with the passphrase variable unset, `encrypt` does
fail with the configuration error, but only after 20 bytes of entropy
(salt and iv) have been drawn: the remaining stream is empty rather than
the untouched original, refuting "before consuming any randomness". -/
theorem C3_counterexample :
    encrypt modelPlatform (loadModuleConfig wEmptyEnv) wEmptyEnv "x" (List.range 20)
      = (.error masterKeyMsg, [])
    ∧ (List.range 20 : List Nat) ≠ [] := by
  constructor
  · rfl
  · decide

/-- C3 (amended): if the passphrase variable is unset or shorter than 16
characters, `encrypt` fails with the configuration error, but only after
generating the salt and IV — the first 20 bytes of the entropy stream are
consumed before passphrase resolution. -/
theorem C3_amended {κ : Type} (P : Platform κ) (cfg : ModuleConfig) (env : Env)
    (e : String) (x : String) (rng : List Nat)
    (h : masterKey env = .error e) :
    encrypt P cfg env x rng = (.error e, rng.drop 20) := by
  simp only [encrypt, getRandomValues, h]
  rw [List.drop_drop]

theorem C3_amended_witness :
    encrypt modelPlatform (loadModuleConfig wEmptyEnv) wEmptyEnv "x" (List.range 20)
      = (.error masterKeyMsg, (List.range 20).drop 20) :=
  C3_amended modelPlatform (loadModuleConfig wEmptyEnv) wEmptyEnv masterKeyMsg "x"
    (List.range 20) rfl

/-- C4 counterexample: malformed base64 in the salt segment (here `!!`)
is decoded *before* the `try` block, so the `InvalidCharacterError`
propagates unwrapped — the error does not begin with
`Decryption failed: `. -/
theorem C4_counterexample :
    decrypt modelPlatform (loadModuleConfig wEnv) wEnv ("base64:1000:!!:AA==:AA==".toList)
      = .error invalidCharMsg
    ∧ List.isPrefixOf ("Decryption failed: ".toList) invalidCharMsg.toList = false := by
  constructor
  · rfl
  · decide

/-- C4 (amended): once the 4-segment split succeeds *and* the three
base64 decodes succeed, every remaining failure (passphrase resolution,
key derivation, AEAD decryption) is re-raised with the
`Decryption failed: ` prefix; base64 decode failures themselves are
raised unwrapped.  -/
theorem C4_amended {κ : Type} (P : Platform κ) (cfg : ModuleConfig) (env : Env)
    (s : JSString) (p0 p1 p2 p3 : JSString) (salt iv ct : List Nat)
    (hsplit : splitOnChar ':' (stripEncodingTag s) = [p0, p1, p2, p3])
    (h1 : base64ToUint8Array p1 = .ok salt)
    (h2 : base64ToUint8Array p2 = .ok iv)
    (h3 : base64ToUint8Array p3 = .ok ct) :
    (∃ m, decrypt P cfg env s = .ok m)
    ∨ (∃ e, decrypt P cfg env s = .error ("Decryption failed: " ++ e)) := by
  cases hm : masterKey env with
  | error e => exact Or.inr ⟨e, by simp only [decrypt, hsplit, h1, h2, h3, hm]⟩
  | ok mk =>
    cases hk : deriveKey P cfg mk salt (some (parseIntChars p0)) with
    | error e => exact Or.inr ⟨e, by simp only [decrypt, hsplit, h1, h2, h3, hm, hk]⟩
    | ok key =>
      cases hd : P.decryptOp key iv ct with
      | error e => exact Or.inr ⟨e, by simp only [decrypt, hsplit, h1, h2, h3, hm, hk, hd]⟩
      | ok buf =>
        exact Or.inl ⟨P.textDecode buf, by simp only [decrypt, hsplit, h1, h2, h3, hm, hk, hd]⟩

theorem C4_amended_witness :
    (∃ m, decrypt modelPlatform (loadModuleConfig wEmptyEnv) wEmptyEnv
        ("base64:1000:AA==:AA==:AA==".toList) = .ok m)
    ∨ (∃ e, decrypt modelPlatform (loadModuleConfig wEmptyEnv) wEmptyEnv
        ("base64:1000:AA==:AA==:AA==".toList) = .error ("Decryption failed: " ++ e)) :=
  C4_amended modelPlatform (loadModuleConfig wEmptyEnv) wEmptyEnv
    ("base64:1000:AA==:AA==:AA==".toList) ("1000".toList) ("AA==".toList)
    ("AA==".toList) ("AA==".toList) [0] [0] [0] (by decide) rfl rfl rfl

/-- C5: whenever the decrypt→JSON-parse pipeline fails on the input and
the target's environment mapping is resolvable, `loadSecrets` does not
raise: it logs the failure and returns the target's environment mapping
with none of its entries changed (the context is returned untouched). -/
theorem C5_loadSecrets_total {κ : Type} (P : Platform κ) (cfg : ModuleConfig) (env : Env)
    (s : JSString) (target : String) (ctx : JSContext) (m : EnvMap)
    (hfail : ∀ plain, decrypt P cfg env s = .ok plain → ∃ e, P.jsonParse plain = .error e)
    (hres : getEnvObject ctx target = .ok m) :
    ∃ lg, loadSecrets P cfg env s target ctx = .ok (m, ctx, some lg) := by
  cases hd : decrypt P cfg env s with
  | error e =>
    exact ⟨"Failed to load secrets: " ++ e, by simp only [loadSecrets, hd, hres]⟩
  | ok plain =>
    obtain ⟨e, he⟩ := hfail plain hd
    exact ⟨"Failed to load secrets: " ++ e, by simp only [loadSecrets, hd, he, hres]⟩

theorem C5_loadSecrets_total_witness :
    ∃ lg, loadSecrets modelPlatform (loadModuleConfig wEnv) wEnv
      ("not-a-real-envelope".toList) EnvTarget.PROCESS wCtx
      = .ok ([("HOME", "/root"), ("A", "0")], wCtx, some lg) :=
  C5_loadSecrets_total modelPlatform (loadModuleConfig wEnv) wEnv
    ("not-a-real-envelope".toList) EnvTarget.PROCESS wCtx
    ([("HOME", "/root"), ("A", "0")])
    (fun plain h => by
      rw [show decrypt modelPlatform (loadModuleConfig wEnv) wEnv
        ("not-a-real-envelope".toList) = .error (formatErrMsg 1) from rfl] at h
      exact Except.noConfusion h)
    rfl

/-- C6: `decrypt` derives its key from the rounds value embedded in the
envelope: an envelope produced by `encrypt` under module configuration
`cfg` decrypts correctly under an arbitrary module configuration `cfg2`
(the process-wide default may have changed between the calls). -/
theorem C6_embedded_rounds {κ : Type} (P : Platform κ)
    (hA : AEADCorrect P) (hT : TextRoundtrip P) (hTB : TextBytes P) (hCB : CipherBytes P)
    (cfg cfg2 : ModuleConfig)
    (hcfg : parseIntChars cfg.pbkdf2Rounds = jsNumber cfg.pbkdf2Rounds)
    (hcol : ':' ∉ cfg.pbkdf2Rounds)
    (env env2 : Env) (mk : String)
    (henv : env "GITOPS_SECRETS_MASTER_KEY" = some mk)
    (henv2 : env2 "GITOPS_SECRETS_MASTER_KEY" = some mk)
    (hlen : 16 ≤ mk.length)
    (x : String) (rng : List Nat) (hrng : ∀ b ∈ rng, b < 256)
    (es : JSString) (henc : (encrypt P cfg env x rng).1 = .ok es) :
    decrypt P cfg2 env2 es = .ok x :=
  decrypt_encrypt_core P hA hT hTB hCB cfg cfg2 env env2 mk hcfg hcol henv henv2
    (by omega) x rng hrng es henc

theorem C6_embedded_rounds_witness :
    decrypt modelPlatform (loadModuleConfig wEnvCall) wEnvCall
      (okStr (encrypt modelPlatform (loadModuleConfig wEnvRounds) wEnvRounds "hi"
        (List.range 20)).1)
      = .ok "hi" :=
  C6_embedded_rounds modelPlatform modelPlatform_aead modelPlatform_textRoundtrip
    modelPlatform_textBytes modelPlatform_cipherBytes (loadModuleConfig wEnvRounds)
    (loadModuleConfig wEnvCall) (by decide) (by decide) wEnvRounds wEnvCall
    "0123456789abcdef" rfl rfl (by decide) "hi" (List.range 20) (by decide) _ rfl

/-- C7 counterexample: the module rounds configuration is captured once at
module evaluation (`loadModuleConfig`), not re-read at call time: with the
module loaded while the variable was `5000`, an `encrypt` call made while
the variable is `7000` still embeds `5000`. -/
theorem C7_counterexample :
    roundsSegment (okStr (encrypt modelPlatform (loadModuleConfig wEnvLoad) wEnvCall "x"
        (List.range 20)).1)
      = "5000".toList
    ∧ wEnvCall "GITOPS_SECRETS_PBKDF2_ROUNDS" = some "7000"
    ∧ "5000".toList ≠ "7000".toList := by
  refine ⟨rfl, rfl, by decide⟩

/-- C7 (amended): the rounds value `encrypt` embeds is the module-level
configuration value captured when the module was evaluated; it does not
depend on the environment at call time. -/
theorem C7_amended {κ : Type} (P : Platform κ) (cfg : ModuleConfig) (env : Env)
    (x : String) (rng : List Nat) (es : JSString)
    (hcol : ':' ∉ cfg.pbkdf2Rounds)
    (henc : (encrypt P cfg env x rng).1 = .ok es) :
    roundsSegment es = cfg.pbkdf2Rounds := by
  simp only [encrypt, getRandomValues] at henc
  cases hm : masterKey env with
  | error e => rw [hm] at henc; simp at henc
  | ok mk =>
    rw [hm] at henc
    simp only [] at henc
    cases hkey : deriveKey P cfg mk (List.take 8 rng) none with
    | error e => rw [hkey] at henc; simp at henc
    | ok key =>
      rw [hkey] at henc
      simp only [] at henc
      have hes : mkEnvelope cfg.pbkdf2Rounds (uint8ArrayToBase64 (List.take 8 rng))
          (uint8ArrayToBase64 (List.take 12 (List.drop 8 rng)))
          (uint8ArrayToBase64 (P.encryptOp key (List.take 12 (List.drop 8 rng))
            (P.textEncode x)))
          = es := by injection henc
      subst hes
      unfold roundsSegment
      rw [stripEncodingTag_mkEnvelope, splitOnChar_envelope _ _ _ _ hcol
        (colon_not_mem_b64 _) (colon_not_mem_b64 _) (colon_not_mem_b64 _)]
      rfl

theorem C7_amended_witness :
    roundsSegment (okStr (encrypt modelPlatform (loadModuleConfig wEnvLoad) wEnvCall "x"
        (List.range 20)).1)
      = (loadModuleConfig wEnvLoad).pbkdf2Rounds :=
  C7_amended modelPlatform (loadModuleConfig wEnvLoad) wEnvCall "x" (List.range 20) _
    (by decide) rfl

/-- C8: for a valid envelope produced by `encrypt`, rewriting any single
byte of the ciphertext (the bytes carried by the fourth segment) yields an
envelope on which `decrypt` under the same passphrase fails with a
`Decryption failed: ` error — it never returns a string.  The
authentication-tag guarantee of the host AEAD (`TamperEvident`) is the
cryptographic ingredient; the theorem shows the codec surfaces it as the
decryption-failure error. -/
theorem C8_tamper {κ : Type} (P : Platform κ)
    (hTE : TamperEvident P) (hTB : TextBytes P) (hCB : CipherBytes P)
    (cfg : ModuleConfig)
    (hcfg : parseIntChars cfg.pbkdf2Rounds = jsNumber cfg.pbkdf2Rounds)
    (hcol : ':' ∉ cfg.pbkdf2Rounds)
    (env env2 : Env) (mk : String)
    (henv : env "GITOPS_SECRETS_MASTER_KEY" = some mk)
    (henv2 : env2 "GITOPS_SECRETS_MASTER_KEY" = some mk)
    (hlen : 16 ≤ mk.length)
    (x : String) (rng : List Nat) (hrng : ∀ b ∈ rng, b < 256)
    (es : JSString) (henc : (encrypt P cfg env x rng).1 = .ok es)
    (p0 p1 p2 p3 : JSString) (ct ct' : List Nat)
    (hseg : splitOnChar ':' (stripEncodingTag es) = [p0, p1, p2, p3])
    (hct : base64ToUint8Array p3 = .ok ct)
    (hch : SingleByteChange ct ct') :
    ∃ e, decrypt P cfg env2 (mkEnvelope p0 p1 p2 (uint8ArrayToBase64 ct'))
      = .error ("Decryption failed: " ++ e) := by
  have hmk : masterKey env = .ok mk := masterKey_ok env mk henv (by omega)
  have hmk2 : masterKey env2 = .ok mk := masterKey_ok env2 mk henv2 (by omega)
  simp only [encrypt, getRandomValues, hmk] at henc
  cases hkey : deriveKey P cfg mk (List.take 8 rng) none with
  | error e => rw [hkey] at henc; simp at henc
  | ok key =>
    rw [hkey] at henc
    simp only [] at henc
    have hes : mkEnvelope cfg.pbkdf2Rounds (uint8ArrayToBase64 (List.take 8 rng))
        (uint8ArrayToBase64 (List.take 12 (List.drop 8 rng)))
        (uint8ArrayToBase64 (P.encryptOp key (List.take 12 (List.drop 8 rng))
          (P.textEncode x)))
        = es := by injection henc
    subst hes
    rw [stripEncodingTag_mkEnvelope, splitOnChar_envelope _ _ _ _ hcol
      (colon_not_mem_b64 _) (colon_not_mem_b64 _) (colon_not_mem_b64 _)] at hseg
    simp only [List.cons.injEq, and_true] at hseg
    obtain ⟨rfl, rfl, rfl, rfl⟩ := hseg
    have hb_ct0 : ∀ b ∈ P.encryptOp key (List.take 12 (List.drop 8 rng)) (P.textEncode x),
        b < 256 := hCB _ _ _ (hTB x)
    have hcteq : P.encryptOp key (List.take 12 (List.drop 8 rng)) (P.textEncode x) = ct := by
      have h := (base64_roundtrip _ hb_ct0).symm.trans hct
      injection h
    subst hcteq
    have hct'_bytes : ∀ c ∈ ct', c < 256 := by
      obtain ⟨i, b, hi, hb, hne, rfl⟩ := hch
      intro c hc
      rcases List.mem_or_eq_of_mem_set hc with h | rfl
      · exact hb_ct0 c h
      · exact hb
    obtain ⟨e, he⟩ := hTE key (List.take 12 (List.drop 8 rng)) (P.textEncode x) ct'
      (hTB x) hch
    refine ⟨e, ?_⟩
    have hsalt_bytes : ∀ b ∈ List.take 8 rng, b < 256 :=
      fun b hb => hrng b (List.mem_of_mem_take hb)
    have hiv_bytes : ∀ b ∈ List.take 12 (List.drop 8 rng), b < 256 :=
      fun b hb => hrng b (List.mem_of_mem_drop (List.mem_of_mem_take hb))
    have hkey2 : deriveKey P cfg mk (List.take 8 rng)
        (some (parseIntChars cfg.pbkdf2Rounds)) = .ok key := by
      unfold deriveKey at hkey ⊢
      rw [hcfg]
      exact hkey
    have hstrip := stripEncodingTag_mkEnvelope cfg.pbkdf2Rounds
      (uint8ArrayToBase64 (List.take 8 rng))
      (uint8ArrayToBase64 (List.take 12 (List.drop 8 rng)))
      (uint8ArrayToBase64 ct')
    have hsplit2 := splitOnChar_envelope cfg.pbkdf2Rounds
      (uint8ArrayToBase64 (List.take 8 rng))
      (uint8ArrayToBase64 (List.take 12 (List.drop 8 rng)))
      (uint8ArrayToBase64 ct')
      hcol (colon_not_mem_b64 _) (colon_not_mem_b64 _) (colon_not_mem_b64 _)
    simp only [decrypt, hstrip, hsplit2, base64_roundtrip _ hsalt_bytes,
      base64_roundtrip _ hiv_bytes, base64_roundtrip _ hct'_bytes, hmk2, hkey2, he]

theorem C8_tamper_witness :
    ∃ e, decrypt modelPlatform (loadModuleConfig wEnv) wEnv
      (mkEnvelope ("1000000".toList)
        (uint8ArrayToBase64 (List.take 8 (List.range 20)))
        (uint8ArrayToBase64 (List.take 12 (List.drop 8 (List.range 20))))
        (uint8ArrayToBase64 (List.set [0, 0, 104, 0, 0, 105, 49] 0 5)))
      = .error ("Decryption failed: " ++ e) :=
  C8_tamper modelPlatform modelPlatform_tamperEvident modelPlatform_textBytes
    modelPlatform_cipherBytes (loadModuleConfig wEnv) (by decide) (by decide)
    wEnv wEnv "0123456789abcdef" rfl rfl (by decide) "hi" (List.range 20) (by decide)
    _ rfl ("1000000".toList)
    (uint8ArrayToBase64 (List.take 8 (List.range 20)))
    (uint8ArrayToBase64 (List.take 12 (List.drop 8 (List.range 20))))
    (uint8ArrayToBase64 [0, 0, 104, 0, 0, 105, 49])
    [0, 0, 104, 0, 0, 105, 49] (List.set [0, 0, 104, 0, 0, 105, 49] 0 5)
    (by rfl) (by rfl) ⟨0, 5, by decide, by decide, by decide, by rfl⟩

/-! ## Environment merge lemmas -/

theorem getKey_setKey_self (m : EnvMap) (k v : String) :
    getKey (setKey m k v) k = some v := by
  induction m with
  | nil => simp [setKey, getKey]
  | cons p rest ih =>
    by_cases hp : p.1 = k
    · simp [setKey, getKey, hp]
    · simp only [setKey, getKey, if_neg hp]
      exact ih

theorem getKey_setKey_ne (m : EnvMap) (k k' v : String) (h : k' ≠ k) :
    getKey (setKey m k v) k' = getKey m k' := by
  induction m with
  | nil =>
    show (if k = k' then some v else none) = none
    rw [if_neg (fun hc => h hc.symm)]
  | cons p rest ih =>
    by_cases hp : p.1 = k
    · simp only [setKey, if_pos hp, getKey]
      rw [if_neg (fun hc => h hc.symm), if_neg (by rw [hp]; exact fun hc => h hc.symm)]
    · simp only [setKey, if_neg hp, getKey]
      by_cases hp' : p.1 = k'
      · rw [if_pos hp', if_pos hp']
      · rw [if_neg hp', if_neg hp']
        exact ih

theorem writeAll_not_mem (payload : List (String × String)) (m : EnvMap) (k : String)
    (h : k ∉ payload.map Prod.fst) : getKey (writeAll m payload) k = getKey m k := by
  induction payload generalizing m with
  | nil => rfl
  | cons kv rest ih =>
    have h1 : k ≠ kv.1 := fun hc => h (by simp [hc])
    have h2 : k ∉ rest.map Prod.fst := fun hc => h (by simp [hc])
    show getKey (writeAll (setKey m kv.1 kv.2) rest) k = getKey m k
    rw [ih _ h2, getKey_setKey_ne _ _ _ _ h1]

theorem writeAll_mem (payload : List (String × String)) (m : EnvMap) (k v : String)
    (hnd : (payload.map Prod.fst).Nodup) (hmem : (k, v) ∈ payload) :
    getKey (writeAll m payload) k = some v := by
  induction payload generalizing m with
  | nil => simp at hmem
  | cons kv rest ih =>
    rw [List.map_cons, List.nodup_cons] at hnd
    rcases List.mem_cons.mp hmem with heq | hrest
    · have hk : kv.1 = k := by rw [← heq]
      have hv : kv.2 = v := by rw [← heq]
      show getKey (writeAll (setKey m kv.1 kv.2) rest) k = some v
      have hknot : k ∉ rest.map Prod.fst := by rw [← hk]; exact hnd.1
      rw [writeAll_not_mem rest _ k hknot, hk, hv, getKey_setKey_self]
    · exact ih _ hnd.2 hrest

/-- C9: for every payload whose keys are distinct and every resolvable
target, `mergeSecrets` writes every payload key into the target mapping
(overwriting prior values), leaves all other keys unchanged, and the
mapping it returns is the one stored in the resulting context (the source
returns the live environment object by reference, so the caller observes
the mutation through it). -/
theorem C9_mergeSecrets (payload : List (String × String)) (target : String)
    (ctx : JSContext) (envObj : EnvMap)
    (hres : getEnvObject ctx target = .ok envObj)
    (hnd : (payload.map Prod.fst).Nodup) :
    ∃ m ctx', mergeSecrets payload target ctx = .ok (m, ctx')
      ∧ (∀ k v, (k, v) ∈ payload → getKey m k = some v)
      ∧ (∀ k, k ∉ payload.map Prod.fst → getKey m k = getKey envObj k)
      ∧ getEnvObject ctx' target = .ok m := by
  obtain ⟨penv, imeta⟩ := ctx
  cases imeta with
  | none =>
    cases penv with
    | none => exact Except.noConfusion hres
    | some pe =>
      have hpe : pe = envObj := by injection hres
      subst hpe
      refine ⟨writeAll pe payload, ⟨some (writeAll pe payload), none⟩, rfl, ?_, ?_, rfl⟩
      · intro k v hm; exact writeAll_mem payload pe k v hnd hm
      · intro k hk; exact writeAll_not_mem payload pe k hk
  | some im =>
    by_cases hT : target = EnvTarget.PROCESS
    · subst hT
      cases penv with
      | none => simp [getEnvObject] at hres
      | some pe =>
        simp [getEnvObject] at hres
        subst hres
        refine ⟨writeAll pe payload, ⟨some (writeAll pe payload), some im⟩, ?_, ?_, ?_, ?_⟩
        · simp [mergeSecrets, getEnvObject]
        · intro k v hm; exact writeAll_mem payload pe k v hnd hm
        · intro k hk; exact writeAll_not_mem payload pe k hk
        · simp [getEnvObject]
    · by_cases hT2 : target = EnvTarget.IMPORT_META
      · subst hT2
        cases im with
        | none => simp [getEnvObject, hT] at hres
        | some em =>
          simp [getEnvObject, hT] at hres
          subst hres
          refine ⟨writeAll em payload, ⟨penv, some (some (writeAll em payload))⟩,
            ?_, ?_, ?_, ?_⟩
          · simp [mergeSecrets, getEnvObject, hT]
          · intro k v hm; exact writeAll_mem payload em k v hnd hm
          · intro k hk; exact writeAll_not_mem payload em k hk
          · simp [getEnvObject, hT]
      · simp [getEnvObject, hT, hT2] at hres

theorem C9_mergeSecrets_witness :
    ∃ m ctx', mergeSecrets [("A", "1"), ("B", "2")] EnvTarget.PROCESS wCtx = .ok (m, ctx')
      ∧ getKey m "A" = some "1" ∧ getKey m "B" = some "2"
      ∧ getKey m "HOME" = some "/root" := by
  obtain ⟨m, ctx', hmerge, hmem, hnot, halias⟩ :=
    C9_mergeSecrets [("A", "1"), ("B", "2")] EnvTarget.PROCESS wCtx
      [("HOME", "/root"), ("A", "0")] rfl (by decide)
  exact ⟨m, ctx', hmerge, hmem "A" "1" (by simp), hmem "B" "2" (by simp),
    (hnot "HOME" (by simp)).trans rfl⟩

/-- C10: when `import.meta` is undefined in the execution context, both
`getEnvObject` and `mergeSecrets` operate on `process.env` for *every*
target value (including `import.meta` and unsupported strings):
`getEnvObject` returns `process.env` when available, `mergeSecrets`
writes into it, and the only error either can raise in that context is
the `process.env`-unavailable one — never
`Unsupported environment target`. -/
theorem C10_import_meta_undefined (ctx : JSContext) (target : String)
    (payload : List (String × String)) (h : ctx.importMeta = none) :
    (∀ pe, ctx.processEnv = some pe →
      getEnvObject ctx target = .ok pe
      ∧ mergeSecrets payload target ctx
          = .ok (writeAll pe payload, { ctx with processEnv := some (writeAll pe payload) }))
    ∧ (ctx.processEnv = none → getEnvObject ctx target = .error processUnavailableMsg)
    ∧ (∀ e, getEnvObject ctx target = .error e → e = processUnavailableMsg) := by
  obtain ⟨penv, imeta⟩ := ctx
  replace h : imeta = none := h
  subst h
  refine ⟨?_, ?_, ?_⟩
  · intro pe hpe
    replace hpe : penv = some pe := hpe
    subst hpe
    exact ⟨rfl, rfl⟩
  · intro hpe
    replace hpe : penv = none := hpe
    subst hpe
    rfl
  · intro e he
    cases penv with
    | none =>
      replace he : Except.error processUnavailableMsg = Except.error e := he
      injection he with he
      exact he.symm
    | some pe => exact Except.noConfusion he

theorem C10_import_meta_undefined_witness :
    getEnvObject wCtx "bogus" = .ok [("HOME", "/root"), ("A", "0")]
    ∧ mergeSecrets [("A", "1")] "bogus" wCtx
        = .ok (writeAll [("HOME", "/root"), ("A", "0")] [("A", "1")],
            { wCtx with
                processEnv := some (writeAll [("HOME", "/root"), ("A", "0")] [("A", "1")]) }) :=
  (C10_import_meta_undefined wCtx "bogus" [("A", "1")] rfl).1
    [("HOME", "/root"), ("A", "0")] rfl

end GitopsSecrets
